import Mathlib

/-!
Verification of the FeedbackAnalyzer two-stage batch categorization pipeline.

This file gives a shallow embedding of the two API routes that implement the
core pipeline:

* the mapping-inference route (`src/app/api/analyze/route.ts`, `POST`):
  validation and repair of the LLM-proposed column mapping, including the
  synthetic fallback identifier column; and
* the batch processing route (the `/api/process` streaming `POST` handler):
  the batch loop with its categorical pass, conditional qualitative (LLM)
  pass, running context sets, event stream, statistics fold, summary and
  persistence steps.

Spreadsheet cell values are modelled as strings (the route stringifies cell
values with `String(answer ?? '')` before use); a row is an association list
from column header to cell value, mirroring a JS object with its insertion
order.  External effects (the categorization LLM call, the summary LLM call
and the store upsert) are modelled as oracle parameters: the categorization
oracle maps a batch number to either a thrown error message or a structured
batch result, exactly the two outcomes of `generateObject` at the call site.
The embedding starts after request validation and client setup succeed
(the code before the batch loop), which is where every claim about the
pipeline lives; machine integers do not overflow at these sizes, so `Nat`
is used directly.  The JS stream handler is additionally instrumented with
a ghost log (`llmCalls`) recording the batch numbers at which the
categorization LLM is invoked; the log changes no observable behaviour.
-/

/-! ## JS string normalization

The routes normalize text with the chain
`String(x).trim().toLowerCase().replace(/\s+/g, '_')`.
We model it over the character list of the string: trim whitespace at both
ends, lowercase every character, then replace every maximal run of
whitespace characters with a single underscore. -/

/-- Replace every maximal whitespace run with one underscore, as
`.replace(/\s+/g, '_')` does; the flag records whether the previous
character was part of a whitespace run. -/
def squashWhitespace : List Char → Bool → List Char
  | [], _ => []
  | c :: cs, inRun =>
    if c.isWhitespace then
      if inRun then squashWhitespace cs true
      else '_' :: squashWhitespace cs true
    else c :: squashWhitespace cs false

/-- Characters of a string with whitespace trimmed from both ends, as
`.trim()` does. -/
def trimChars (s : String) : List Char :=
  ((s.data.dropWhile Char.isWhitespace).reverse.dropWhile Char.isWhitespace).reverse

/-- The normalization chain `.trim().toLowerCase().replace(/\s+/g, '_')`
used for topics, sub-categories and categorical answers. -/
def normalizeText (s : String) : String :=
  String.mk (squashWhitespace ((trimChars s).map Char.toLower) false)

/-- The trimmed string, as `.trim()`; used for the blank-answer tests
`String(a.answer ?? '').trim() !== ''`. -/
def jsTrim (s : String) : String :=
  String.mk (trimChars s)

/-! ## Rows

A parsed spreadsheet row: a JS object mapping column headers to (stringified)
cell values, modelled as an insertion-ordered association list. -/

/-- A spreadsheet row record, header to cell value. -/
abbrev Row := List (String × String)

/-- Lookup `row[h]`: `some` value when the key is present, `none` when the
property is absent (JS `undefined`). -/
def Row.get (r : Row) (h : String) : Option String :=
  (r.find? (fun p => p.1 == h)).map (fun p => p.2)

/-- Lookup with default, modelling `row[h] ?? d`. -/
def Row.getD (r : Row) (h : String) (d : String) : String :=
  (Row.get r h).getD d

/-- Property assignment `{...row, [h]: v}`: overwrite in place when the key
exists, append the key otherwise (JS object key order). -/
def Row.set (r : Row) (h v : String) : Row :=
  if r.any (fun p => p.1 == h) then
    r.map (fun p => if p.1 == h then (h, v) else p)
  else r ++ [(h, v)]

/-! ## Data model shared by both routes -/

/-- One entry of the proposed/confirmed mapping's `questionHeaders`
(interface `QuestionHeaderInfo` in the process route). -/
structure QuestionHeaderInfo where
  header : String
  isCategorical : Bool
deriving DecidableEq

/-- The confirmed mapping received by the process route
(interface `ConfirmedMapping`). -/
structure ConfirmedMapping where
  studentIdHeader : String
  questionHeaders : List QuestionHeaderInfo
deriving DecidableEq

/-- One categorization of one answer as returned by the categorization LLM
(zod schema `categorizedAnswerSchema`): `sub_category` is optional. -/
structure CategorizedAnswer where
  question : String
  topic : String
  sentiment : String
  sub_category : Option String
deriving DecidableEq

/-- Per-respondent LLM batch output (zod schema `categorizedStudentSchema`). -/
structure CategorizedStudent where
  respondentId : String
  categorizations : List CategorizedAnswer
deriving DecidableEq

/-- One record of the run ledger (`allRunCategorizations` entries). -/
structure Categorization where
  run_id : String
  student_identifier : String
  question_text : String
  original_answer : String
  topic : String
  sentiment : String
  sub_category : Option String
deriving DecidableEq

/-- Per-question stats: combined category key to count
(interface `QuestionStats`). -/
abbrev QuestionStats := List (String × Nat)

/-- Run stats: question text to per-question stats (interface `RunStats`). -/
abbrev RunStats := List (String × QuestionStats)

/-- Messages sent on the SSE stream (type `StreamMessage`). -/
inductive StreamMessage where
  | batchStart (index : Nat) (total : Nat)
  | result (data : CategorizedStudent)
  | stats (data : RunStats)
  | summary (text : String)
  | error (message : String) (batchIndex : Option Nat)
  | complete (message : String)
deriving DecidableEq

/-- The process route's batch size constant (`BATCH_SIZE = 50`). -/
def BATCH_SIZE : Nat := 50

/-- The default sub-category sentinel (`SUB_CATEGORY_DEFAULT = 'detail_na'`). -/
def SUB_CATEGORY_DEFAULT : String := "detail_na"

/-- The fallback identifier column header of the analyze route
(`GENERATED_ID_HEADER`). -/
def GENERATED_ID_HEADER : String := "__generated_row_id__"

/-! ## Mapping inference route (`/api/analyze`, lines 100-187)

The route extracts headers from the first row (`Object.keys(rows[0])`),
asks the LLM for a proposed mapping, then validates and repairs it.  We
model the validation-and-repair stage, from the proposed mapping onward. -/

/-- The LLM-proposed mapping (zod schema `mappingSchema`): the identifier
header is nullable. -/
structure ProposedMapping where
  studentIdHeader : Option String
  questionHeaders : List QuestionHeaderInfo
deriving DecidableEq

/-- Headers of the row set: `Object.keys(rows[0])` (the route has already
rejected an empty row set at this point). -/
def headersOf (rows : List Row) : List String :=
  match rows with
  | [] => []
  | r :: _ => r.map (fun p => p.1)

/-- Condition for generating the fallback identifier (line 132):
`studentIdHeader === null || !allHeaders.includes(studentIdHeader)`. -/
def needsGeneratedId (rows : List Row) (pm : ProposedMapping) : Bool :=
  match pm.studentIdHeader with
  | none => true
  | some s => !(headersOf rows).contains s

/-- Injection of the generated identifier column into every row
(lines 147-151): `{...row, [GENERATED_ID_HEADER]:` `Row ${index + 1}` `}`. -/
def injectGeneratedId (rows : List Row) : List Row :=
  rows.enum.map (fun p => Row.set p.2 GENERATED_ID_HEADER ("Row " ++ toString (p.1 + 1)))

/-- The identifier header after the fallback step. -/
def resolvedStudentId (rows : List Row) (pm : ProposedMapping) : String :=
  if needsGeneratedId rows pm then GENERATED_ID_HEADER
  else pm.studentIdHeader.getD ""

/-- The row set after the fallback step. -/
def resolvedRows (rows : List Row) (pm : ProposedMapping) : List Row :=
  if needsGeneratedId rows pm then injectGeneratedId rows else rows

/-- The header set recomputed after the fallback step (line 154). -/
def resolvedHeaders (rows : List Row) (pm : ProposedMapping) : List String :=
  headersOf (resolvedRows rows pm)

/-- The message of the fatal validation error thrown at line 173, naming the
offending headers and the actual header set. -/
def invalidHeadersMsg (invalid : List String) (allHeaders : List String) : String :=
  "LLM proposed questionHeaders contain invalid headers not found in the sheet (or generated ID): "
    ++ String.intercalate ", " invalid ++ ". Actual headers: "
    ++ String.intercalate ", " allHeaders

/-- Final check (lines 177-182): drop any question header equal to the
resolved identifier header. -/
def finalizeMapping (sid : String) (qhs : List QuestionHeaderInfo) : ConfirmedMapping :=
  if qhs.any (fun qh => qh.header == sid) then
    { studentIdHeader := sid, questionHeaders := qhs.filter (fun qh => qh.header != sid) }
  else
    { studentIdHeader := sid, questionHeaders := qhs }

/-- Validation and repair of the proposed mapping (lines 128-184), returning
the confirmed mapping and the (possibly id-injected) rows, or the fatal
validation error. -/
def validateMapping (rows : List Row) (pm : ProposedMapping) :
    Except String (ConfirmedMapping × List Row) :=
  let generated := needsGeneratedId rows pm
  let sid := resolvedStudentId rows pm
  let rows2 := resolvedRows rows pm
  let allHeaders := resolvedHeaders rows pm
  let invalid := (pm.questionHeaders.map (fun qh => qh.header)).filter
    (fun h => !allHeaders.contains h)
  if invalid.isEmpty then
    .ok (finalizeMapping sid pm.questionHeaders, rows2)
  else if generated && invalid.length == 1 && (invalid.head? == some sid) then
    .ok (finalizeMapping sid (pm.questionHeaders.filter (fun qh => qh.header != sid)), rows2)
  else
    .error (invalidHeadersMsg invalid allHeaders)

/-! ## Batch processing route (`/api/process` streaming handler)

The handler destructures `{runId, confirmedMapping, rows}`, then streams
per-batch events while accumulating `allRunCategorizations`,
`identifiedTopics` and `identifiedSubCategories`, and finally emits the
stats, summary and completion events. -/

/-- Static data of one run: the request payload fields that stay fixed over
the batch loop, the `USE_MOCK_LLM` flag and the batch size constant. -/
structure RunConfig where
  runId : String
  mapping : ConfirmedMapping
  useMockLlm : Bool
  batchSize : Nat
deriving DecidableEq

/-- Outcome of one categorization LLM call (`generateObject`, lines 239-251,
or the mock): a thrown error message, or the structured batch result. -/
abbrev LLMOracle := Nat → Except String (List CategorizedStudent)

/-- The external effects of one run: the per-batch categorization call, the
summary `generateText` call and the store upsert. -/
structure RunOracles where
  llm : LLMOracle
  summaryLLM : Except String String
  persist : Except String Unit

/-- Mutable run state threaded through the batch loop: the ledger
(`allRunCategorizations`), the running context sets (`identifiedTopics`,
`identifiedSubCategories`, insertion-ordered as JS `Set`s are), the events
sent so far, and the ghost log of LLM invocations. -/
structure RunState where
  ledger : List Categorization
  topics : List String
  subCats : List String
  events : List StreamMessage
  llmCalls : List Nat
deriving DecidableEq

/-- The initial run state (lines 148-150). -/
def initialRunState : RunState :=
  { ledger := [], topics := [], subCats := [], events := [], llmCalls := [] }

/-- Respondent identifier of a row at absolute position `absIdx` (0-based):
`row[studentIdHeader] ??` `Row ${i + index + 1} (No ID)` (lines 165, 189,
283). -/
def respondentIdOf (sid : String) (absIdx : Nat) (row : Row) : String :=
  Row.getD row sid ("Row " ++ toString (absIdx + 1) ++ " (No ID)")

/-- The categorical-pass record for one row and one categorical question
(lines 169-181): the normalized answer is the sub-category, with
`SUB_CATEGORY_DEFAULT` when it normalizes to the empty string, the topic is
the normalized question header, and the sentiment is the fixed `"n/a"`. -/
def catRecord (runId sid : String) (absIdx : Nat) (row : Row) (q : QuestionHeaderInfo) :
    Categorization :=
  let answer := Row.getD row q.header ""
  let normalizedAnswer :=
    if normalizeText answer = "" then SUB_CATEGORY_DEFAULT else normalizeText answer
  { run_id := runId
    student_identifier := respondentIdOf sid absIdx row
    question_text := q.header
    original_answer := answer
    topic := normalizeText q.header
    sentiment := "n/a"
    sub_category := some normalizedAnswer }

/-- The categorical pass over one batch starting at absolute offset `i`
(lines 164-183): for each row, one record per categorical question. -/
def catPassLedger (runId sid : String) (i : Nat) (batch : List Row)
    (catQs : List QuestionHeaderInfo) : List Categorization :=
  (batch.enum.map (fun p => catQs.map (catRecord runId sid (i + p.1) p.2))).flatten

/-- Whether the batch holds at least one non-blank answer to a qualitative
question (`qualitativeDataExistsInBatch`, lines 187-200): some row has some
qualitative question with `String(row[q] ?? '').trim() !== ''`. -/
def qualDataExists (qualQs : List QuestionHeaderInfo) (batch : List Row) : Bool :=
  batch.any (fun row => qualQs.any (fun q => jsTrim (Row.getD row q.header "") != ""))

/-- Normalization of one LLM categorization (lines 258-272): topic
normalized with `"n/a"` default, sentiment defaulted to `"neutral"` when
falsy, sub-category normalized with the empty string coerced to absent. -/
def normalizeCategorizedAnswer (c : CategorizedAnswer) : CategorizedAnswer :=
  let normalizedTopic := if normalizeText c.topic = "" then "n/a" else normalizeText c.topic
  let normalizedSentiment := if c.sentiment = "" then "neutral" else c.sentiment
  let normalizedSubCategory :=
    match c.sub_category with
    | none => none
    | some v => if normalizeText v = "" then none else some (normalizeText v)
  { question := c.question
    topic := normalizedTopic
    sentiment := normalizedSentiment
    sub_category := normalizedSubCategory }

/-- Normalization applied to a whole per-respondent result. -/
def normalizeStudent (sr : CategorizedStudent) : CategorizedStudent :=
  { respondentId := sr.respondentId
    categorizations := sr.categorizations.map normalizeCategorizedAnswer }

/-- Normalization applied to the whole batch result. -/
def normalizeResults (rs : List CategorizedStudent) : List CategorizedStudent :=
  rs.map normalizeStudent

/-- JS `Set.add`: append the element when absent, keep insertion order. -/
def insertSet (l : List String) (s : String) : List String :=
  if s ∈ l then l else l ++ [s]

/-- Context-set update for one (already normalized) categorization
(lines 261, 270-272): topics other than `"n/a"` and present sub-categories
are added. -/
def updateContext (tc : List String × List String) (c : CategorizedAnswer) :
    List String × List String :=
  let topics := if c.topic ≠ "n/a" then insertSet tc.1 c.topic else tc.1
  let subCats :=
    match c.sub_category with
    | some sc => insertSet tc.2 sc
    | none => tc.2
  (topics, subCats)

/-- Context-set update over one normalized batch result, in iteration order
(outer loop over respondents, inner over categorizations). -/
def updateContextResults (tc : List String × List String)
    (rs : List CategorizedStudent) : List String × List String :=
  rs.foldl (fun tc sr => sr.categorizations.foldl updateContext tc) tc

/-- Lookup of the original row for an LLM result (lines 282-285):
`batch.find` comparing the recomputed respondent id with the returned one. -/
def findOriginalRow (sid : String) (i : Nat) (batch : List Row) (rid : String) : Option Row :=
  (batch.enum.find? (fun p => respondentIdOf sid (i + p.1) p.2 == rid)).map (fun p => p.2)

/-- Ledger records appended for one respondent result against its original
row (lines 288-301): only categorizations whose question is one of the
qualitative headers are kept. -/
def qualRecordsFor (runId : String) (qualQs : List QuestionHeaderInfo) (originalRow : Row)
    (sr : CategorizedStudent) : List Categorization :=
  (sr.categorizations.filter (fun c => qualQs.any (fun q => q.header == c.question))).map
    (fun c =>
      { run_id := runId
        student_identifier := sr.respondentId
        question_text := c.question
        original_answer := Row.getD originalRow c.question ""
        topic := c.topic
        sentiment := c.sentiment
        sub_category := c.sub_category })

/-- Ledger contribution of one respondent result: empty when no original
row matches the returned respondent id (lines 287-304). -/
def qualLedgerOf (runId sid : String) (i : Nat) (batch : List Row)
    (qualQs : List QuestionHeaderInfo) (sr : CategorizedStudent) : List Categorization :=
  match findOriginalRow sid i batch sr.respondentId with
  | some row => qualRecordsFor runId qualQs row sr
  | none => []

/-- Accumulation step for one respondent result (lines 278-305): stream the
`result` event, then append the ledger records for the found original row. -/
def accumStep (runId sid : String) (i : Nat) (batch : List Row)
    (qualQs : List QuestionHeaderInfo) (st : RunState) (sr : CategorizedStudent) : RunState :=
  let st := { st with events := st.events ++ [StreamMessage.result sr] }
  { st with ledger := st.ledger ++ qualLedgerOf runId sid i batch qualQs sr }

/-- One iteration of the batch loop (lines 152-319) over the batch starting
at absolute offset `i`: emit `batchStart`, run the categorical pass, and
when the batch qualifies, invoke the LLM and either report the per-batch
error or normalize, update the context sets and accumulate the results. -/
def processBatch (cfg : RunConfig) (oracle : LLMOracle) (totalBatches i : Nat)
    (batch : List Row) (st : RunState) : RunState :=
  let batchNumber := i / cfg.batchSize + 1
  let st := { st with events := st.events ++ [StreamMessage.batchStart batchNumber totalBatches] }
  let qualQs := cfg.mapping.questionHeaders.filter (fun q => !q.isCategorical)
  let catQs := cfg.mapping.questionHeaders.filter (fun q => q.isCategorical)
  let st := { st with
    ledger := st.ledger ++ catPassLedger cfg.runId cfg.mapping.studentIdHeader i batch catQs }
  if qualQs.length > 0 && qualDataExists qualQs batch then
    let st := { st with llmCalls := st.llmCalls ++ [batchNumber] }
    match oracle batchNumber with
    | Except.error msg =>
        { st with
          events := st.events ++
            [StreamMessage.error
              ("Processing error in batch " ++ toString batchNumber ++ ": " ++ msg)
              (some batchNumber)] }
    | Except.ok rs =>
        let nrs := normalizeResults rs
        let tc := updateContextResults (st.topics, st.subCats) nrs
        let st := { st with topics := tc.1, subCats := tc.2 }
        nrs.foldl (accumStep cfg.runId cfg.mapping.studentIdHeader i batch qualQs) st
  else st

/-- The batch loop `for (let i = 0; i < rows.length; i += BATCH_SIZE)`
(line 152), with explicit fuel so the definition is structural; the fuel is
instantiated with `rows.length`, which suffices for any positive batch
size. -/
def runBatchLoopF (cfg : RunConfig) (oracle : LLMOracle) (totalBatches : Nat) :
    Nat → List Row → Nat → RunState → RunState
  | 0, _, _, st => st
  | _, [], _, st => st
  | fuel + 1, r :: rest, i, st =>
      runBatchLoopF cfg oracle totalBatches fuel ((r :: rest).drop cfg.batchSize)
        (i + cfg.batchSize)
        (processBatch cfg oracle totalBatches i ((r :: rest).take cfg.batchSize) st)

/-- The batch loop over a whole row set. -/
def runBatchLoop (cfg : RunConfig) (oracle : LLMOracle) (totalBatches : Nat)
    (rows : List Row) : RunState :=
  runBatchLoopF cfg oracle totalBatches rows.length rows 0 initialRunState

/-! ## Aggregation, summary, persistence and completion (lines 321-431) -/

/-- Increment of one combined-category counter inside a question's stats
object: `acc[q][c] = (acc[q][c] || 0) + 1`, creating the key lazily. -/
def bumpCount (qs : QuestionStats) (key : String) : QuestionStats :=
  if qs.any (fun p => p.1 == key) then
    qs.map (fun p => if p.1 == key then (p.1, p.2 + 1) else p)
  else qs ++ [(key, 1)]

/-- One step of the stats reduce (lines 329-339): records with a falsy
`question_text`, `topic` or `sentiment` are skipped; the combined key is
`topic_sentiment_subCategoryKey` with the sub-category defaulted to
`SUB_CATEGORY_DEFAULT` when falsy. -/
def statsStep (acc : RunStats) (record : Categorization) : RunStats :=
  if record.question_text = "" ∨ record.topic = "" ∨ record.sentiment = "" then acc
  else
    let subCategoryKey :=
      match record.sub_category with
      | none => SUB_CATEGORY_DEFAULT
      | some s => if s = "" then SUB_CATEGORY_DEFAULT else s
    let combinedCategory := record.topic ++ "_" ++ record.sentiment ++ "_" ++ subCategoryKey
    if acc.any (fun p => p.1 == record.question_text) then
      acc.map (fun p =>
        if p.1 == record.question_text then (p.1, bumpCount p.2 combinedCategory) else p)
    else acc ++ [(record.question_text, bumpCount [] combinedCategory)]

/-- The stats fold over the whole ledger (`allRunCategorizations.reduce`). -/
def computeRunStats (ledger : List Categorization) : RunStats :=
  ledger.foldl statsStep []

/-- The default summary text (line 351). -/
def DEFAULT_SUMMARY : String := "AI summary could not be generated."

/-- The mock-mode summary text (line 386). -/
def MOCK_SUMMARY : String :=
  "Mock Summary: Feedback shows mixed results with some positive comments about X and negative comments about Y."

/-- Events of the summary stage (lines 350-393): with non-empty stats and
the real LLM, a `summary` event on success but only an `error` event on
failure; a fixed mock summary in mock mode; the default summary text when
no stats were calculated. -/
def summaryEvents (cfg : RunConfig) (oracles : RunOracles) (runStats : RunStats) :
    List StreamMessage :=
  if runStats.length > 0 && !cfg.useMockLlm then
    match oracles.summaryLLM with
    | Except.ok text => [StreamMessage.summary text]
    | Except.error msg =>
        [StreamMessage.error ("Failed to generate AI summary: " ++ msg) none]
  else if cfg.useMockLlm then [StreamMessage.summary MOCK_SUMMARY]
  else [StreamMessage.summary DEFAULT_SUMMARY]

/-- Events of the persistence stage (lines 395-427): an `error` event on
upsert failure, nothing on success; the run proceeds to `complete` either
way. -/
def persistEvents (oracles : RunOracles) : List StreamMessage :=
  match oracles.persist with
  | Except.ok _ => []
  | Except.error msg => [StreamMessage.error ("Failed to save final results: " ++ msg) none]

/-- The terminal `complete` message (line 430). -/
def completeMsg (nRows : Nat) : String :=
  "Processing and statistics finished for " ++ toString nRows ++ " rows."

/-- All events after the batch loop (lines 321-431): `stats`, then the
summary stage, then the persistence stage, then `complete`. -/
def terminalEvents (cfg : RunConfig) (oracles : RunOracles) (runStats : RunStats)
    (nRows : Nat) : List StreamMessage :=
  StreamMessage.stats runStats :: summaryEvents cfg oracles runStats
    ++ persistEvents oracles ++ [StreamMessage.complete (completeMsg nRows)]

/-- The number of batches, `Math.ceil(rows.length / BATCH_SIZE)` (line 145). -/
def totalBatchesFor (batchSize nRows : Nat) : Nat :=
  (nRows + batchSize - 1) / batchSize

/-- The whole streaming handler from the batch loop on: run every batch,
fold the stats over the final ledger, and append the terminal events. -/
def processRun (cfg : RunConfig) (oracles : RunOracles) (rows : List Row) : RunState :=
  let totalBatches := totalBatchesFor cfg.batchSize rows.length
  let st := runBatchLoop cfg oracles.llm totalBatches rows
  let runStats := computeRunStats st.ledger
  { st with events := st.events ++ terminalEvents cfg oracles runStats rows.length }

/-- The stats streamed and persisted for a run (`runStats` at line 329). -/
def finalRunStats (cfg : RunConfig) (oracles : RunOracles) (rows : List Row) : RunStats :=
  computeRunStats (runBatchLoop cfg oracles.llm (totalBatchesFor cfg.batchSize rows.length) rows).ledger

/-! ## Derived per-batch views

The batch loop's effect decomposes per batch: the events it appends, the
ledger records it appends, the LLM invocations it logs and the context-set
update it performs depend only on the batch (and the oracle), not on the
incoming state.  The following definitions name those contributions; they
are proved equal to `processBatch`'s effect below and carry the structural
claims about the stream. -/

/-- The 1-based batch number of the batch starting at offset `i`
(`i / BATCH_SIZE + 1`, line 154). -/
def batchNumberOf (batchSize i : Nat) : Nat := i / batchSize + 1

/-- Events of one batch after its `batchStart`: the per-batch error event
on LLM failure, or one `result` event per normalized respondent result. -/
def batchInnerEvents (cfg : RunConfig) (oracle : LLMOracle) (i : Nat) (batch : List Row) :
    List StreamMessage :=
  let qualQs := cfg.mapping.questionHeaders.filter (fun q => !q.isCategorical)
  let bn := batchNumberOf cfg.batchSize i
  if qualQs.length > 0 && qualDataExists qualQs batch then
    match oracle bn with
    | Except.error msg =>
        [StreamMessage.error ("Processing error in batch " ++ toString bn ++ ": " ++ msg)
          (some bn)]
    | Except.ok rs => (normalizeResults rs).map StreamMessage.result
  else []

/-- All events of one batch: its `batchStart` followed by its inner events. -/
def batchEvents (cfg : RunConfig) (oracle : LLMOracle) (totalBatches i : Nat)
    (batch : List Row) : List StreamMessage :=
  StreamMessage.batchStart (batchNumberOf cfg.batchSize i) totalBatches
    :: batchInnerEvents cfg oracle i batch

/-- Ledger records contributed by the qualitative pass of one batch: none on
skip or failure, the per-respondent records otherwise. -/
def batchQualLedger (cfg : RunConfig) (oracle : LLMOracle) (i : Nat) (batch : List Row) :
    List Categorization :=
  let qualQs := cfg.mapping.questionHeaders.filter (fun q => !q.isCategorical)
  if qualQs.length > 0 && qualDataExists qualQs batch then
    match oracle (batchNumberOf cfg.batchSize i) with
    | Except.error _ => []
    | Except.ok rs =>
        ((normalizeResults rs).map
          (qualLedgerOf cfg.runId cfg.mapping.studentIdHeader i batch qualQs)).flatten
  else []

/-- All ledger records contributed by one batch: the categorical pass first,
then the qualitative pass. -/
def batchLedger (cfg : RunConfig) (oracle : LLMOracle) (i : Nat) (batch : List Row) :
    List Categorization :=
  catPassLedger cfg.runId cfg.mapping.studentIdHeader i batch
      (cfg.mapping.questionHeaders.filter (fun q => q.isCategorical))
    ++ batchQualLedger cfg oracle i batch

/-- Ghost-log entries of one batch: the batch number exactly when the LLM is
invoked for it. -/
def batchCallLog (cfg : RunConfig) (i : Nat) (batch : List Row) : List Nat :=
  let qualQs := cfg.mapping.questionHeaders.filter (fun q => !q.isCategorical)
  if qualQs.length > 0 && qualDataExists qualQs batch then [batchNumberOf cfg.batchSize i]
  else []

/-- Context-set update performed by one batch. -/
def batchContextUpd (cfg : RunConfig) (oracle : LLMOracle) (i : Nat) (batch : List Row)
    (tc : List String × List String) : List String × List String :=
  let qualQs := cfg.mapping.questionHeaders.filter (fun q => !q.isCategorical)
  if qualQs.length > 0 && qualDataExists qualQs batch then
    match oracle (batchNumberOf cfg.batchSize i) with
    | Except.error _ => tc
    | Except.ok rs => updateContextResults tc (normalizeResults rs)
  else tc

/-- The batches of a run: `(offset, rows.slice(offset, offset + B))` pairs in
loop order, with explicit fuel matching `runBatchLoopF`. -/
def chunksFromF (batchSize : Nat) : Nat → List Row → Nat → List (Nat × List Row)
  | 0, _, _ => []
  | _, [], _ => []
  | fuel + 1, r :: rest, i =>
      (i, (r :: rest).take batchSize)
        :: chunksFromF batchSize fuel ((r :: rest).drop batchSize) (i + batchSize)

/-- The batches of a run over a whole row set. -/
def chunksFrom (batchSize : Nat) (rows : List Row) : List (Nat × List Row) :=
  chunksFromF batchSize rows.length rows 0

/-- The index of a `batchStart` event, `none` for every other event kind. -/
def batchStartIdxOf : StreamMessage → Option Nat
  | StreamMessage.batchStart idx _ => some idx
  | _ => none

/-- The `batchStart` indices of an event sequence, in emission order. -/
def batchStartIndices (evs : List StreamMessage) : List Nat :=
  evs.filterMap batchStartIdxOf

/-- Whether an event is a `summary` event. -/
def isSummaryEvent : StreamMessage → Bool
  | StreamMessage.summary _ => true
  | _ => false

/-! ## Concrete fixtures

Small concrete runs used to evaluate the model: the spec's concrete
scenario (one row, `Email`/`Rating`/`Comments`) and variants exercising the
per-batch failure, the summary failure and the `"n/a"`-topic paths. -/

/-- The concrete scenario's confirmed mapping: `Email` identifies the
respondent, `Rating` is categorical, `Comments` is qualitative. -/
def exMapping : ConfirmedMapping :=
  { studentIdHeader := "Email"
    questionHeaders := [⟨"Rating", true⟩, ⟨"Comments", false⟩] }

/-- The concrete scenario's single row. -/
def exRow : Row := [("Email", "a@x.com"), ("Rating", "5"), ("Comments", "great staff")]

/-- The concrete scenario's run configuration. -/
def exCfg : RunConfig :=
  { runId := "run1", mapping := exMapping, useMockLlm := false, batchSize := BATCH_SIZE }

/-- The concrete scenario's mocked categorization result: topic `staff`,
sentiment `positive`, no sub-category, for `Comments`. -/
def exLLM : LLMOracle :=
  fun _ => Except.ok [⟨"a@x.com", [⟨"Comments", "staff", "positive", none⟩]⟩]

/-- The concrete scenario's oracles: successful summary and persistence. -/
def exOracles : RunOracles :=
  { llm := exLLM, summaryLLM := Except.ok "All good.", persist := Except.ok () }

/-- A run with only a categorical question whose summary generation fails. -/
def c2Cfg : RunConfig :=
  { runId := "run2"
    mapping := { studentIdHeader := "Email", questionHeaders := [⟨"Rating", true⟩] }
    useMockLlm := false
    batchSize := BATCH_SIZE }

/-- Oracles for the summary-failure run. -/
def c2Oracles : RunOracles :=
  { llm := fun _ => Except.ok []
    summaryLLM := Except.error "model unavailable"
    persist := Except.ok () }

/-- The single row of the summary-failure run. -/
def c2Rows : List Row := [[("Email", "a@x.com"), ("Rating", "5")]]

/-- A row without the `Rating` column, so its categorical answer is blank. -/
def c3Row : Row := [("Email", "b@x.com")]

/-- A two-row, batch-size-one run whose first batch's LLM call throws. -/
def c1Cfg : RunConfig :=
  { runId := "run4"
    mapping := { studentIdHeader := "Email", questionHeaders := [⟨"Comments", false⟩] }
    useMockLlm := false
    batchSize := 1 }

/-- Rows of that run: both have non-blank qualitative answers. -/
def c1Rows : List Row :=
  [[("Email", "a@x.com"), ("Comments", "good")],
   [("Email", "b@x.com"), ("Comments", "bad")]]

/-- Oracles of that run: batch 1 throws, batch 2 returns an empty result. -/
def c1Oracles : RunOracles :=
  { llm := fun n => if n == 1 then Except.error "rate limited" else Except.ok []
    summaryLLM := Except.ok "Summary."
    persist := Except.ok () }

/-- A qualitative-only run whose LLM result carries the topic `" N/A "`,
which normalizes to the `"n/a"` sentinel. -/
def c9Cfg : RunConfig :=
  { runId := "run5"
    mapping := { studentIdHeader := "Email", questionHeaders := [⟨"Comments", false⟩] }
    useMockLlm := false
    batchSize := BATCH_SIZE }

/-- The LLM result with the sentinel-normalizing topic. -/
def c9Student : CategorizedStudent := ⟨"a@x.com", [⟨"Comments", " N/A ", "neutral", none⟩]⟩

/-- Oracles of the sentinel-topic run. -/
def c9Oracles : RunOracles :=
  { llm := fun _ => Except.ok [c9Student]
    summaryLLM := Except.ok "Summary."
    persist := Except.ok () }

/-- The single row of the sentinel-topic run. -/
def c9Rows : List Row := [[("Email", "a@x.com"), ("Comments", "meh")]]

/-- An LLM result used for the context-accumulation witness: a topic and a
sub-category that normalize to fresh entries. -/
def c9okStudent : CategorizedStudent :=
  ⟨"a@x.com", [⟨"Comments", "Staff Friendly", "positive", some "Helpful Desk"⟩]⟩

/-- Oracles returning that witness result. -/
def c9okOracles : RunOracles :=
  { llm := fun _ => Except.ok [c9okStudent]
    summaryLLM := Except.ok "Summary."
    persist := Except.ok () }

/-- Mapping-validation fixtures: a proposed mapping that survives
validation unchanged. -/
def c5Pm : ProposedMapping := ⟨some "Email", [⟨"Rating", true⟩]⟩

/-- Row set for the mapping-validation fixtures. -/
def c5Rows : List Row := [[("Email", "a@x.com"), ("Rating", "5")]]

/-- A proposed mapping with no identifier, triggering the fallback. -/
def c6Pm : ProposedMapping := ⟨none, [⟨"Rating", true⟩]⟩

/-- Row set for the fallback fixture. -/
def c6Rows : List Row := [[("Rating", "5")]]

/-- A proposed mapping naming a hallucinated question header. -/
def c7Pm : ProposedMapping := ⟨some "Email", [⟨"Bogus", false⟩]⟩

/-- Row set for the hallucinated-header fixture. -/
def c7Rows : List Row := [[("Email", "a@x.com")]]

/-! ## Basic lemmas: rows, sets and context updates -/

theorem find?_map_overwrite (h v : String) :
    ∀ r : Row, r.any (fun p => p.1 == h) = true →
      (r.map (fun p => if p.1 == h then (h, v) else p)).find? (fun p => p.1 == h) = some (h, v) := by
  intro r
  induction r with
  | nil => intro hany; simp at hany
  | cons p rest ih =>
      intro hany
      by_cases hph : (p.1 == h) = true
      · simp only [List.map_cons]
        rw [if_pos hph]
        simp [List.find?_cons]
      · simp only [List.any_cons, Bool.or_eq_true] at hany
        rcases hany with hl | hr
        · exact absurd hl hph
        · have hph' : (p.1 == h) = false := by simpa using hph
          simp only [List.map_cons]
          rw [if_neg hph]
          simp only [List.find?_cons, hph']
          exact ih hr

theorem Row.get_set_self (r : Row) (h v : String) :
    Row.get (Row.set r h v) h = some v := by
  unfold Row.set Row.get
  by_cases hany : r.any (fun p => p.1 == h) = true
  · rw [if_pos hany, find?_map_overwrite h v r hany]
    rfl
  · rw [if_neg hany, List.find?_append]
    have hnone : r.find? (fun p => p.1 == h) = none := by
      rw [List.find?_eq_none]
      intro x hx hpx
      exact hany (List.any_eq_true.mpr ⟨x, hx, hpx⟩)
    simp [hnone]

theorem Row.mem_keys_set (r : Row) (h v : String) :
    h ∈ (Row.set r h v).map (fun p => p.1) := by
  unfold Row.set
  by_cases hany : r.any (fun p => p.1 == h) = true
  · rw [if_pos hany]
    obtain ⟨p, hp, hph⟩ := List.any_eq_true.mp hany
    refine List.mem_map.mpr ⟨(h, v), ?_, rfl⟩
    refine List.mem_map.mpr ⟨p, hp, ?_⟩
    rw [if_pos hph]
  · rw [if_neg hany]
    simp

theorem insertSet_grows (l : List String) (s : String) : l <+: insertSet l s := by
  unfold insertSet
  by_cases hmem : s ∈ l
  · simp [hmem]
  · simp [hmem, List.prefix_append]

theorem mem_insertSet_self (l : List String) (s : String) : s ∈ insertSet l s := by
  unfold insertSet
  by_cases hmem : s ∈ l
  · rwa [if_pos hmem]
  · rw [if_neg hmem]
    simp

theorem updateContext_grows (tc : List String × List String) (c : CategorizedAnswer) :
    tc.1 <+: (updateContext tc c).1 ∧ tc.2 <+: (updateContext tc c).2 := by
  unfold updateContext
  constructor
  · dsimp only
    split
    · exact insertSet_grows _ _
    · exact List.prefix_refl _
  · dsimp only
    split
    · exact insertSet_grows _ _
    · exact List.prefix_refl _

theorem foldl_updateContext_grows (cs : List CategorizedAnswer) :
    ∀ tc : List String × List String,
      tc.1 <+: (cs.foldl updateContext tc).1 ∧ tc.2 <+: (cs.foldl updateContext tc).2 := by
  induction cs with
  | nil => intro tc; simp
  | cons c rest ih =>
      intro tc
      have h1 := updateContext_grows tc c
      have h2 := ih (updateContext tc c)
      exact ⟨h1.1.trans h2.1, h1.2.trans h2.2⟩

theorem updateContextResults_grows (rs : List CategorizedStudent) :
    ∀ tc : List String × List String,
      tc.1 <+: (updateContextResults tc rs).1 ∧ tc.2 <+: (updateContextResults tc rs).2 := by
  induction rs with
  | nil => intro tc; simp [updateContextResults]
  | cons sr rest ih =>
      intro tc
      have h1 := foldl_updateContext_grows sr.categorizations tc
      have h2 := ih (sr.categorizations.foldl updateContext tc)
      unfold updateContextResults at h2 ⊢
      simp only [List.foldl_cons]
      exact ⟨h1.1.trans h2.1, h1.2.trans h2.2⟩

theorem foldl_updateContext_mem_topic (cs : List CategorizedAnswer) (cat : CategorizedAnswer)
    (hna : cat.topic ≠ "n/a") :
    cat ∈ cs → ∀ tc : List String × List String, cat.topic ∈ (cs.foldl updateContext tc).1 := by
  induction cs with
  | nil => intro hc; cases hc
  | cons c rest ih =>
      intro hc tc
      simp only [List.foldl_cons]
      rcases List.mem_cons.mp hc with heq | hmem
      · subst heq
        have hbase : cat.topic ∈ (updateContext tc cat).1 := by
          unfold updateContext
          dsimp only
          rw [if_pos hna]
          exact mem_insertSet_self _ _
        exact (foldl_updateContext_grows rest (updateContext tc cat)).1.subset hbase
      · exact ih hmem (updateContext tc c)

theorem foldl_updateContext_mem_sub (cs : List CategorizedAnswer) (cat : CategorizedAnswer)
    (sc : String) (hsc : cat.sub_category = some sc) :
    cat ∈ cs → ∀ tc : List String × List String, sc ∈ (cs.foldl updateContext tc).2 := by
  induction cs with
  | nil => intro hc; cases hc
  | cons c rest ih =>
      intro hc tc
      simp only [List.foldl_cons]
      rcases List.mem_cons.mp hc with heq | hmem
      · subst heq
        have hbase : sc ∈ (updateContext tc cat).2 := by
          unfold updateContext
          dsimp only
          rw [hsc]
          exact mem_insertSet_self _ _
        exact (foldl_updateContext_grows rest (updateContext tc cat)).2.subset hbase
      · exact ih hmem (updateContext tc c)

theorem updateContextResults_mem_topic (rs : List CategorizedStudent)
    (sr : CategorizedStudent) (cat : CategorizedAnswer)
    (hcat : cat ∈ sr.categorizations) (hna : cat.topic ≠ "n/a") :
    sr ∈ rs → ∀ tc : List String × List String, cat.topic ∈ (updateContextResults tc rs).1 := by
  induction rs with
  | nil => intro hsr; cases hsr
  | cons x rest ih =>
      intro hsr tc
      unfold updateContextResults
      simp only [List.foldl_cons]
      rcases List.mem_cons.mp hsr with heq | hmem
      · subst heq
        have hbase := foldl_updateContext_mem_topic sr.categorizations cat hna hcat tc
        have hpre := updateContextResults_grows rest (sr.categorizations.foldl updateContext tc)
        unfold updateContextResults at hpre
        exact hpre.1.subset hbase
      · exact ih hmem (x.categorizations.foldl updateContext tc)

theorem updateContextResults_mem_sub (rs : List CategorizedStudent)
    (sr : CategorizedStudent) (cat : CategorizedAnswer)
    (hcat : cat ∈ sr.categorizations) (sc : String) (hsc : cat.sub_category = some sc) :
    sr ∈ rs → ∀ tc : List String × List String, sc ∈ (updateContextResults tc rs).2 := by
  induction rs with
  | nil => intro hsr; cases hsr
  | cons x rest ih =>
      intro hsr tc
      unfold updateContextResults
      simp only [List.foldl_cons]
      rcases List.mem_cons.mp hsr with heq | hmem
      · subst heq
        have hbase := foldl_updateContext_mem_sub sr.categorizations cat sc hsc hcat tc
        have hpre := updateContextResults_grows rest (sr.categorizations.foldl updateContext tc)
        unfold updateContextResults at hpre
        exact hpre.2.subset hbase
      · exact ih hmem (x.categorizations.foldl updateContext tc)

/-! ## Decomposition of the batch loop -/

theorem foldl_accumStep (runId sid : String) (i : Nat) (batch : List Row)
    (qualQs : List QuestionHeaderInfo) (nrs : List CategorizedStudent) :
    ∀ st : RunState,
      nrs.foldl (accumStep runId sid i batch qualQs) st =
        { st with
          events := st.events ++ nrs.map StreamMessage.result
          ledger := st.ledger ++ (nrs.map (qualLedgerOf runId sid i batch qualQs)).flatten } := by
  induction nrs with
  | nil => intro st; simp
  | cons sr rest ih =>
      intro st
      simp only [List.foldl_cons, ih, accumStep]
      simp [List.append_assoc]

theorem processBatch_spec (cfg : RunConfig) (oracle : LLMOracle) (totalBatches i : Nat)
    (batch : List Row) (st : RunState) :
    processBatch cfg oracle totalBatches i batch st =
      { ledger := st.ledger ++ batchLedger cfg oracle i batch
        topics := (batchContextUpd cfg oracle i batch (st.topics, st.subCats)).1
        subCats := (batchContextUpd cfg oracle i batch (st.topics, st.subCats)).2
        events := st.events ++ batchEvents cfg oracle totalBatches i batch
        llmCalls := st.llmCalls ++ batchCallLog cfg i batch } := by
  unfold processBatch batchLedger batchQualLedger batchEvents batchInnerEvents
    batchCallLog batchContextUpd batchNumberOf
  by_cases hcond : ((cfg.mapping.questionHeaders.filter (fun q => !q.isCategorical)).length > 0
      && qualDataExists (cfg.mapping.questionHeaders.filter (fun q => !q.isCategorical)) batch)
      = true
  · cases horacle : oracle (i / cfg.batchSize + 1) with
    | error msg => simp [hcond, horacle, List.append_assoc]
    | ok rs => simp [hcond, horacle, foldl_accumStep, List.append_assoc]
  · simp [hcond]

theorem runBatchLoopF_eq_foldl (cfg : RunConfig) (oracle : LLMOracle) (totalBatches : Nat)
    (hB : 0 < cfg.batchSize) :
    ∀ (fuel : Nat) (rows : List Row) (i : Nat) (st : RunState), rows.length ≤ fuel →
      runBatchLoopF cfg oracle totalBatches fuel rows i st =
        (chunksFromF cfg.batchSize fuel rows i).foldl
          (fun st c => processBatch cfg oracle totalBatches c.1 c.2 st) st := by
  intro fuel
  induction fuel with
  | zero =>
      intro rows i st hlen
      simp [runBatchLoopF, chunksFromF]
  | succ n ih =>
      intro rows i st hlen
      cases rows with
      | nil => simp [runBatchLoopF, chunksFromF]
      | cons r rest =>
          simp only [runBatchLoopF, chunksFromF, List.foldl_cons]
          apply ih
          simp only [List.length_drop, List.length_cons] at *
          omega

theorem foldl_processBatch_events (cfg : RunConfig) (oracle : LLMOracle) (totalBatches : Nat)
    (chunks : List (Nat × List Row)) :
    ∀ st : RunState,
      (chunks.foldl (fun st c => processBatch cfg oracle totalBatches c.1 c.2 st) st).events =
        st.events ++ (chunks.map (fun c => batchEvents cfg oracle totalBatches c.1 c.2)).flatten := by
  induction chunks with
  | nil => intro st; simp
  | cons c rest ih =>
      intro st
      simp only [List.foldl_cons, List.map_cons, List.flatten_cons]
      rw [ih, processBatch_spec]
      simp [List.append_assoc]

theorem foldl_processBatch_ledger (cfg : RunConfig) (oracle : LLMOracle) (totalBatches : Nat)
    (chunks : List (Nat × List Row)) :
    ∀ st : RunState,
      (chunks.foldl (fun st c => processBatch cfg oracle totalBatches c.1 c.2 st) st).ledger =
        st.ledger ++ (chunks.map (fun c => batchLedger cfg oracle c.1 c.2)).flatten := by
  induction chunks with
  | nil => intro st; simp
  | cons c rest ih =>
      intro st
      simp only [List.foldl_cons, List.map_cons, List.flatten_cons]
      rw [ih, processBatch_spec]
      simp [List.append_assoc]

theorem foldl_processBatch_llmCalls (cfg : RunConfig) (oracle : LLMOracle) (totalBatches : Nat)
    (chunks : List (Nat × List Row)) :
    ∀ st : RunState,
      (chunks.foldl (fun st c => processBatch cfg oracle totalBatches c.1 c.2 st) st).llmCalls =
        st.llmCalls ++ (chunks.map (fun c => batchCallLog cfg c.1 c.2)).flatten := by
  induction chunks with
  | nil => intro st; simp
  | cons c rest ih =>
      intro st
      simp only [List.foldl_cons, List.map_cons, List.flatten_cons]
      rw [ih, processBatch_spec]
      simp [List.append_assoc]

theorem foldl_processBatch_context (cfg : RunConfig) (oracle : LLMOracle) (totalBatches : Nat)
    (chunks : List (Nat × List Row)) :
    ∀ st : RunState,
      ((chunks.foldl (fun st c => processBatch cfg oracle totalBatches c.1 c.2 st) st).topics,
        (chunks.foldl (fun st c => processBatch cfg oracle totalBatches c.1 c.2 st) st).subCats) =
        chunks.foldl (fun tc c => batchContextUpd cfg oracle c.1 c.2 tc)
          (st.topics, st.subCats) := by
  induction chunks with
  | nil => intro st; simp
  | cons c rest ih =>
      intro st
      simp only [List.foldl_cons]
      rw [ih, processBatch_spec]

theorem runBatchLoop_events (cfg : RunConfig) (oracle : LLMOracle) (totalBatches : Nat)
    (rows : List Row) (hB : 0 < cfg.batchSize) :
    (runBatchLoop cfg oracle totalBatches rows).events =
      ((chunksFrom cfg.batchSize rows).map
        (fun c => batchEvents cfg oracle totalBatches c.1 c.2)).flatten := by
  unfold runBatchLoop chunksFrom
  rw [runBatchLoopF_eq_foldl cfg oracle totalBatches hB rows.length rows 0 initialRunState le_rfl,
    foldl_processBatch_events]
  simp [initialRunState]

theorem runBatchLoop_ledger (cfg : RunConfig) (oracle : LLMOracle) (totalBatches : Nat)
    (rows : List Row) (hB : 0 < cfg.batchSize) :
    (runBatchLoop cfg oracle totalBatches rows).ledger =
      ((chunksFrom cfg.batchSize rows).map (fun c => batchLedger cfg oracle c.1 c.2)).flatten := by
  unfold runBatchLoop chunksFrom
  rw [runBatchLoopF_eq_foldl cfg oracle totalBatches hB rows.length rows 0 initialRunState le_rfl,
    foldl_processBatch_ledger]
  simp [initialRunState]

theorem runBatchLoop_llmCalls (cfg : RunConfig) (oracle : LLMOracle) (totalBatches : Nat)
    (rows : List Row) (hB : 0 < cfg.batchSize) :
    (runBatchLoop cfg oracle totalBatches rows).llmCalls =
      ((chunksFrom cfg.batchSize rows).map (fun c => batchCallLog cfg c.1 c.2)).flatten := by
  unfold runBatchLoop chunksFrom
  rw [runBatchLoopF_eq_foldl cfg oracle totalBatches hB rows.length rows 0 initialRunState le_rfl,
    foldl_processBatch_llmCalls]
  simp [initialRunState]

theorem runBatchLoop_context (cfg : RunConfig) (oracle : LLMOracle) (totalBatches : Nat)
    (rows : List Row) (hB : 0 < cfg.batchSize) :
    ((runBatchLoop cfg oracle totalBatches rows).topics,
      (runBatchLoop cfg oracle totalBatches rows).subCats) =
      (chunksFrom cfg.batchSize rows).foldl
        (fun tc c => batchContextUpd cfg oracle c.1 c.2 tc) ([], []) := by
  unfold runBatchLoop chunksFrom
  rw [runBatchLoopF_eq_foldl cfg oracle totalBatches hB rows.length rows 0 initialRunState le_rfl,
    foldl_processBatch_context]
  rfl

theorem processRun_events (cfg : RunConfig) (oracles : RunOracles) (rows : List Row)
    (hB : 0 < cfg.batchSize) :
    (processRun cfg oracles rows).events =
      ((chunksFrom cfg.batchSize rows).map
        (fun c => batchEvents cfg oracles.llm (totalBatchesFor cfg.batchSize rows.length) c.1 c.2)).flatten
      ++ terminalEvents cfg oracles (finalRunStats cfg oracles rows) rows.length := by
  unfold processRun finalRunStats
  simp only []
  rw [runBatchLoop_events cfg oracles.llm _ rows hB]

theorem processRun_ledger (cfg : RunConfig) (oracles : RunOracles) (rows : List Row)
    (hB : 0 < cfg.batchSize) :
    (processRun cfg oracles rows).ledger =
      ((chunksFrom cfg.batchSize rows).map (fun c => batchLedger cfg oracles.llm c.1 c.2)).flatten := by
  unfold processRun
  simp only []
  rw [runBatchLoop_ledger cfg oracles.llm _ rows hB]

theorem processRun_llmCalls (cfg : RunConfig) (oracles : RunOracles) (rows : List Row)
    (hB : 0 < cfg.batchSize) :
    (processRun cfg oracles rows).llmCalls =
      ((chunksFrom cfg.batchSize rows).map (fun c => batchCallLog cfg c.1 c.2)).flatten := by
  unfold processRun
  simp only []
  rw [runBatchLoop_llmCalls cfg oracles.llm _ rows hB]

theorem processRun_context (cfg : RunConfig) (oracles : RunOracles) (rows : List Row)
    (hB : 0 < cfg.batchSize) :
    ((processRun cfg oracles rows).topics, (processRun cfg oracles rows).subCats) =
      (chunksFrom cfg.batchSize rows).foldl
        (fun tc c => batchContextUpd cfg oracles.llm c.1 c.2 tc) ([], []) := by
  unfold processRun
  simp only []
  rw [runBatchLoop_context cfg oracles.llm _ rows hB]

/-! ## Batch numbering -/

theorem totalBatchesFor_zero (B : Nat) (hB : 0 < B) : totalBatchesFor B 0 = 0 := by
  unfold totalBatchesFor
  exact Nat.div_eq_of_lt (by omega)

theorem totalBatchesFor_step (B n : Nat) (hB : 0 < B) (hn : 0 < n) :
    totalBatchesFor B n = totalBatchesFor B (n - B) + 1 := by
  unfold totalBatchesFor
  rcases le_or_lt n B with hle | hlt
  · have h0 : n - B = 0 := by omega
    rw [h0]
    have e1 : (n + B - 1) / B = 1 := Nat.div_eq_of_lt_le (by omega) (by omega)
    have e2 : (0 + B - 1) / B = 0 := Nat.div_eq_of_lt (by omega)
    omega
  · have e : n + B - 1 = (n - B + B - 1) + B := by omega
    rw [e, Nat.add_div_right _ hB]

theorem chunksFromF_numbering (B : Nat) (hB : 0 < B) :
    ∀ (fuel : Nat) (rows : List Row) (c : Nat), rows.length ≤ fuel →
      (chunksFromF B fuel rows (B * c)).map (fun p => batchNumberOf B p.1) =
        List.range' (c + 1) (totalBatchesFor B rows.length) 1 := by
  intro fuel
  induction fuel with
  | zero =>
      intro rows c hlen
      have h0 : rows.length = 0 := by omega
      rw [chunksFromF, h0, totalBatchesFor_zero B hB]
      simp
  | succ n ih =>
      intro rows c hlen
      cases rows with
      | nil =>
          simp only [chunksFromF, List.length_nil, totalBatchesFor_zero B hB]
          simp
      | cons r rest =>
          have hstep := totalBatchesFor_step B (r :: rest).length hB (by simp)
          simp only [chunksFromF, List.map_cons]
          have hnum : batchNumberOf B (B * c) = c + 1 := by
            unfold batchNumberOf
            rw [Nat.mul_div_cancel_left c hB]
          have hoff : B * c + B = B * (c + 1) := by ring
          rw [hnum, hoff, ih ((r :: rest).drop B) (c + 1) (by
            simp only [List.length_drop, List.length_cons] at *
            omega)]
          rw [hstep, List.range'_succ]
          simp [List.length_drop]

theorem chunksFrom_numbering (B : Nat) (rows : List Row) (hB : 0 < B) :
    (chunksFrom B rows).map (fun p => batchNumberOf B p.1) =
      List.range' 1 (totalBatchesFor B rows.length) 1 := by
  have h := chunksFromF_numbering B hB rows.length rows 0 le_rfl
  simpa using h

/-! ## Events carried by each part of the stream -/

theorem batchStartIdxOf_inner (cfg : RunConfig) (oracle : LLMOracle) (i : Nat)
    (batch : List Row) :
    ∀ e ∈ batchInnerEvents cfg oracle i batch, batchStartIdxOf e = none := by
  intro e he
  simp only [batchInnerEvents] at he
  split at he
  · split at he
    · simp only [List.mem_singleton] at he
      subst he
      rfl
    · obtain ⟨sr, _, heq⟩ := List.mem_map.mp he
      subst heq
      rfl
  · cases he

theorem batchStartIndices_batchEvents (cfg : RunConfig) (oracle : LLMOracle)
    (totalBatches i : Nat) (batch : List Row) :
    batchStartIndices (batchEvents cfg oracle totalBatches i batch) =
      [batchNumberOf cfg.batchSize i] := by
  unfold batchStartIndices batchEvents
  rw [List.filterMap_cons]
  have hinner : (batchInnerEvents cfg oracle i batch).filterMap batchStartIdxOf = [] := by
    rw [List.filterMap_eq_nil_iff]
    exact batchStartIdxOf_inner cfg oracle i batch
  simp [batchStartIdxOf, hinner]

theorem batchStartIdxOf_terminal (cfg : RunConfig) (oracles : RunOracles) (s : RunStats)
    (n : Nat) :
    ∀ e ∈ terminalEvents cfg oracles s n, batchStartIdxOf e = none := by
  intro e he
  unfold terminalEvents at he
  rcases List.mem_cons.mp he with heq | he
  · subst heq; rfl
  rcases List.mem_append.mp he with he | he
  · rcases List.mem_append.mp he with he | he
    · unfold summaryEvents at he
      split at he
      · split at he
        · simp only [List.mem_singleton] at he; subst he; rfl
        · simp only [List.mem_singleton] at he; subst he; rfl
      · split at he
        · simp only [List.mem_singleton] at he; subst he; rfl
        · simp only [List.mem_singleton] at he; subst he; rfl
    · unfold persistEvents at he
      split at he
      · cases he
      · simp only [List.mem_singleton] at he; subst he; rfl
  · simp only [List.mem_singleton] at he; subst he; rfl

theorem filterMap_flatten_eq (f : StreamMessage → Option Nat) (ll : List (List StreamMessage)) :
    ll.flatten.filterMap f = (ll.map (List.filterMap f)).flatten := by
  induction ll with
  | nil => rfl
  | cons h t ih => simp [List.filterMap_append, ih]

theorem flatten_map_singleton (g : Nat × List Row → Nat) (l : List (Nat × List Row)) :
    (l.map (fun c => [g c])).flatten = l.map g := by
  induction l with
  | nil => rfl
  | cons c rest ih => simp [ih]

theorem batchStartIndices_processRun (cfg : RunConfig) (oracles : RunOracles)
    (rows : List Row) (hB : 0 < cfg.batchSize) :
    batchStartIndices (processRun cfg oracles rows).events =
      List.range' 1 (totalBatchesFor cfg.batchSize rows.length) 1 := by
  unfold batchStartIndices
  rw [processRun_events cfg oracles rows hB, List.filterMap_append, filterMap_flatten_eq,
    List.map_map]
  have hterm : (terminalEvents cfg oracles (finalRunStats cfg oracles rows)
      rows.length).filterMap batchStartIdxOf = [] := by
    rw [List.filterMap_eq_nil_iff]
    exact batchStartIdxOf_terminal cfg oracles _ _
  rw [hterm, List.append_nil]
  have hmap : ((chunksFrom cfg.batchSize rows).map
      (List.filterMap batchStartIdxOf ∘ fun c =>
        batchEvents cfg oracles.llm (totalBatchesFor cfg.batchSize rows.length) c.1 c.2)) =
      (chunksFrom cfg.batchSize rows).map (fun c => [batchNumberOf cfg.batchSize c.1]) := by
    apply List.map_congr_left
    intro c _
    exact batchStartIndices_batchEvents cfg oracles.llm _ c.1 c.2
  rw [hmap, flatten_map_singleton (fun c => batchNumberOf cfg.batchSize c.1)]
  exact chunksFrom_numbering cfg.batchSize rows hB

theorem processRun_getLast (cfg : RunConfig) (oracles : RunOracles) (rows : List Row) :
    (processRun cfg oracles rows).events.getLast? =
      some (StreamMessage.complete (completeMsg rows.length)) := by
  unfold processRun terminalEvents
  simp only []
  rw [show StreamMessage.stats (computeRunStats (runBatchLoop cfg oracles.llm
        (totalBatchesFor cfg.batchSize rows.length) rows).ledger)
      :: summaryEvents cfg oracles (computeRunStats (runBatchLoop cfg oracles.llm
        (totalBatchesFor cfg.batchSize rows.length) rows).ledger)
      ++ persistEvents oracles ++ [StreamMessage.complete (completeMsg rows.length)] =
      (StreamMessage.stats (computeRunStats (runBatchLoop cfg oracles.llm
        (totalBatchesFor cfg.batchSize rows.length) rows).ledger)
      :: summaryEvents cfg oracles (computeRunStats (runBatchLoop cfg oracles.llm
        (totalBatchesFor cfg.batchSize rows.length) rows).ledger)
      ++ persistEvents oracles) ++ [StreamMessage.complete (completeMsg rows.length)] from by
    simp [List.append_assoc]]
  rw [← List.append_assoc]
  exact List.getLast?_concat _

theorem mem_events_of_mem_batchEvents (cfg : RunConfig) (oracles : RunOracles)
    (rows : List Row) (hB : 0 < cfg.batchSize) (c : Nat × List Row)
    (hc : c ∈ chunksFrom cfg.batchSize rows) (e : StreamMessage)
    (he : e ∈ batchEvents cfg oracles.llm (totalBatchesFor cfg.batchSize rows.length) c.1 c.2) :
    e ∈ (processRun cfg oracles rows).events := by
  rw [processRun_events cfg oracles rows hB]
  refine List.mem_append.mpr (Or.inl ?_)
  exact List.mem_flatten.mpr ⟨_, List.mem_map.mpr ⟨c, hc, rfl⟩, he⟩

theorem catPassLedger_within (cfg : RunConfig) (oracles : RunOracles) (rows : List Row)
    (hB : 0 < cfg.batchSize) (c : Nat × List Row) (hc : c ∈ chunksFrom cfg.batchSize rows) :
    catPassLedger cfg.runId cfg.mapping.studentIdHeader c.1 c.2
        (cfg.mapping.questionHeaders.filter (fun q => q.isCategorical))
      <:+: (processRun cfg oracles rows).ledger := by
  rw [processRun_ledger cfg oracles rows hB]
  obtain ⟨l1, l2, hsplit⟩ := List.append_of_mem hc
  rw [hsplit]
  refine ⟨(l1.map (fun c => batchLedger cfg oracles.llm c.1 c.2)).flatten,
    batchQualLedger cfg oracles.llm c.1 c.2
      ++ (l2.map (fun c => batchLedger cfg oracles.llm c.1 c.2)).flatten, ?_⟩
  simp [batchLedger, List.append_assoc]

/-! ## Mapping validation lemmas -/

theorem finalizeMapping_studentId (sid : String) (qhs : List QuestionHeaderInfo) :
    (finalizeMapping sid qhs).studentIdHeader = sid := by
  unfold finalizeMapping
  split <;> rfl

theorem finalizeMapping_not_id (sid : String) (qhs : List QuestionHeaderInfo) :
    ∀ qh ∈ (finalizeMapping sid qhs).questionHeaders, qh.header ≠ sid := by
  unfold finalizeMapping
  split
  · intro qh hqh
    have := (List.mem_filter.mp hqh).2
    exact bne_iff_ne.mp this
  · intro qh hqh heq
    rename_i hany
    exact hany (List.any_eq_true.mpr ⟨qh, hqh, by simpa using heq⟩)

theorem validateMapping_ok_shape (rows : List Row) (pm : ProposedMapping)
    (m : ConfirmedMapping) (rows2 : List Row)
    (hok : validateMapping rows pm = Except.ok (m, rows2)) :
    rows2 = resolvedRows rows pm ∧
      ∃ qhs : List QuestionHeaderInfo, m = finalizeMapping (resolvedStudentId rows pm) qhs := by
  simp only [validateMapping] at hok
  split at hok
  · have h := Except.ok.inj hok
    exact ⟨(congrArg Prod.snd h).symm, pm.questionHeaders, (congrArg Prod.fst h).symm⟩
  · split at hok
    · have h := Except.ok.inj hok
      exact ⟨(congrArg Prod.snd h).symm, _, (congrArg Prod.fst h).symm⟩
    · cases hok

theorem resolvedStudentId_mem (rows : List Row) (pm : ProposedMapping) (hrows : rows ≠ []) :
    resolvedStudentId rows pm ∈ resolvedHeaders rows pm := by
  unfold resolvedStudentId resolvedHeaders resolvedRows
  by_cases hgen : needsGeneratedId rows pm = true
  · rw [if_pos hgen, if_pos hgen]
    cases rows with
    | nil => exact absurd rfl hrows
    | cons r rest =>
        unfold injectGeneratedId
        rw [List.enum_cons]
        simp only [List.map_cons]
        unfold headersOf
        exact Row.mem_keys_set r GENERATED_ID_HEADER _
  · rw [if_neg hgen, if_neg hgen]
    unfold needsGeneratedId at hgen
    cases hsid : pm.studentIdHeader with
    | none => rw [hsid] at hgen; exact absurd rfl hgen
    | some s =>
        rw [hsid] at hgen
        have hcontains : (headersOf rows).contains s = true := by
          by_cases hc : (headersOf rows).contains s = true
          · exact hc
          · exfalso
            apply hgen
            simp only [Bool.not_eq_true] at hc
            simpa using hc
        simpa using hcontains

theorem injectGeneratedId_get (rows : List Row) (k : Nat)
    (hk : k < (injectGeneratedId rows).length) :
    Row.get ((injectGeneratedId rows).get ⟨k, hk⟩) GENERATED_ID_HEADER =
      some ("Row " ++ toString (k + 1)) := by
  unfold injectGeneratedId
  rw [List.get_eq_getElem, List.getElem_map, List.getElem_enum]
  exact Row.get_set_self _ _ _

/-! ## Claim theorems -/

/-- C5: for every mapping that survives validation, `studentIdHeader` is not
the header of any entry in `questionHeaders`. -/
theorem mapping_invariant (rows : List Row) (pm : ProposedMapping) (m : ConfirmedMapping)
    (rows2 : List Row) (hok : validateMapping rows pm = Except.ok (m, rows2)) :
    ∀ qh ∈ m.questionHeaders, qh.header ≠ m.studentIdHeader := by
  obtain ⟨-, qhs, hm⟩ := validateMapping_ok_shape rows pm m rows2 hok
  subst hm
  rw [finalizeMapping_studentId]
  exact finalizeMapping_not_id _ _

theorem mapping_invariant_witness : ("Rating" : String) ≠ "Email" :=
  mapping_invariant c5Rows c5Pm ⟨"Email", [⟨"Rating", true⟩]⟩ c5Rows rfl
    ⟨"Rating", true⟩ (by decide)

/-- C6: whenever the LLM-returned identifier is null or not a real header, a
synthetic identifier column is injected: every row of the returned row set
carries the sequential label `"Row <n>"` under `GENERATED_ID_HEADER`, the
mapping's `studentIdHeader` is rewritten to the synthetic header, and the
synthetic header never appears among the question headers. -/
theorem fallback_identifier (rows : List Row) (pm : ProposedMapping) (m : ConfirmedMapping)
    (rows2 : List Row)
    (hid : ∀ s, pm.studentIdHeader = some s → s ∉ headersOf rows)
    (hok : validateMapping rows pm = Except.ok (m, rows2)) :
    m.studentIdHeader = GENERATED_ID_HEADER
    ∧ rows2.length = rows.length
    ∧ (∀ (k : Nat) (hk : k < rows2.length),
        Row.get (rows2.get ⟨k, hk⟩) GENERATED_ID_HEADER = some ("Row " ++ toString (k + 1)))
    ∧ ∀ qh ∈ m.questionHeaders, qh.header ≠ GENERATED_ID_HEADER := by
  have hgen : needsGeneratedId rows pm = true := by
    unfold needsGeneratedId
    cases hsid : pm.studentIdHeader with
    | none => rfl
    | some s =>
        have hs := hid s hsid
        simp [hs]
  obtain ⟨hrows2, qhs, hm⟩ := validateMapping_ok_shape rows pm m rows2 hok
  have hres : resolvedRows rows pm = injectGeneratedId rows := by
    unfold resolvedRows
    rw [if_pos hgen]
  rw [hres] at hrows2
  subst hrows2
  have hsid : resolvedStudentId rows pm = GENERATED_ID_HEADER := by
    unfold resolvedStudentId
    rw [if_pos hgen]
  subst hm
  refine ⟨by rw [finalizeMapping_studentId, hsid], ?_, ?_, ?_⟩
  · unfold injectGeneratedId
    simp
  · intro k hk
    exact injectGeneratedId_get rows k hk
  · intro qh hqh
    have h1 := finalizeMapping_not_id (resolvedStudentId rows pm) qhs qh hqh
    rwa [hsid] at h1

theorem fallback_identifier_witness :
    (⟨GENERATED_ID_HEADER, [⟨"Rating", true⟩]⟩ : ConfirmedMapping).studentIdHeader
        = GENERATED_ID_HEADER
    ∧ Row.get [("Rating", "5"), (GENERATED_ID_HEADER, "Row 1")] GENERATED_ID_HEADER
        = some ("Row " ++ toString (0 + 1)) := by
  have h := fallback_identifier c6Rows c6Pm ⟨GENERATED_ID_HEADER, [⟨"Rating", true⟩]⟩
      [[("Rating", "5"), (GENERATED_ID_HEADER, "Row 1")]]
      (by intro s hs; simp [c6Pm] at hs) rfl
  exact ⟨h.1, h.2.2.1 0 (by decide)⟩

/-- C7: when some question header other than the resolved identifier header
is absent from the (possibly id-injected) header set, validation fails with
the error naming exactly the offending headers; nothing is repaired. -/
theorem hallucinated_header_fatal (rows : List Row) (pm : ProposedMapping)
    (hrows : rows ≠ [])
    (hbad : ∃ qh ∈ pm.questionHeaders,
      qh.header ≠ resolvedStudentId rows pm ∧ qh.header ∉ resolvedHeaders rows pm) :
    validateMapping rows pm =
      Except.error (invalidHeadersMsg
        ((pm.questionHeaders.map (fun qh => qh.header)).filter
          (fun h => !(resolvedHeaders rows pm).contains h))
        (resolvedHeaders rows pm)) := by
  obtain ⟨qh, hqh, hne, hnotin⟩ := hbad
  have hmem : qh.header ∈ (pm.questionHeaders.map (fun qh => qh.header)).filter
      (fun h => !(resolvedHeaders rows pm).contains h) := by
    refine List.mem_filter.mpr ⟨List.mem_map.mpr ⟨qh, hqh, rfl⟩, ?_⟩
    simpa using hnotin
  have hempty : ¬ (((pm.questionHeaders.map (fun qh => qh.header)).filter
      (fun h => !(resolvedHeaders rows pm).contains h)).isEmpty = true) := by
    rw [List.isEmpty_iff]
    exact List.ne_nil_of_mem hmem
  have hcondfalse : ¬ ((needsGeneratedId rows pm
      && ((pm.questionHeaders.map (fun qh => qh.header)).filter
          (fun h => !(resolvedHeaders rows pm).contains h)).length == 1
      && (((pm.questionHeaders.map (fun qh => qh.header)).filter
          (fun h => !(resolvedHeaders rows pm).contains h)).head?
            == some (resolvedStudentId rows pm))) = true) := by
    intro hc
    have h3 := (Bool.and_eq_true _ _ |>.mp hc).2
    have h4 : ((pm.questionHeaders.map (fun qh => qh.header)).filter
        (fun h => !(resolvedHeaders rows pm).contains h)).head?
          = some (resolvedStudentId rows pm) := by
      simpa using h3
    have h5 : resolvedStudentId rows pm ∈ (pm.questionHeaders.map (fun qh => qh.header)).filter
        (fun h => !(resolvedHeaders rows pm).contains h) := by
      cases hfl : (pm.questionHeaders.map (fun qh => qh.header)).filter
          (fun h => !(resolvedHeaders rows pm).contains h) with
      | nil => rw [hfl] at h4; cases h4
      | cons x xs =>
          rw [hfl] at h4
          simp only [List.head?_cons, Option.some.injEq] at h4
          rw [← h4]
          exact List.mem_cons_self x xs
    have h6 := (List.mem_filter.mp h5).2
    have h7 : resolvedStudentId rows pm ∉ resolvedHeaders rows pm := by simpa using h6
    exact h7 (resolvedStudentId_mem rows pm hrows)
  simp only [validateMapping]
  rw [if_neg hempty, if_neg hcondfalse]

theorem hallucinated_header_fatal_witness :
    validateMapping c7Rows c7Pm = Except.error (invalidHeadersMsg ["Bogus"] ["Email"]) :=
  hallucinated_header_fatal c7Rows c7Pm (by decide)
    ⟨⟨"Bogus", false⟩, by decide, by decide, by decide⟩

theorem batchContextUpd_grows (cfg : RunConfig) (oracle : LLMOracle) (i : Nat)
    (batch : List Row) (tc : List String × List String) :
    tc.1 <+: (batchContextUpd cfg oracle i batch tc).1
    ∧ tc.2 <+: (batchContextUpd cfg oracle i batch tc).2 := by
  simp only [batchContextUpd]
  split
  · split
    · exact ⟨List.prefix_refl _, List.prefix_refl _⟩
    · exact updateContextResults_grows _ _
  · exact ⟨List.prefix_refl _, List.prefix_refl _⟩

theorem foldl_batchContextUpd_grows (cfg : RunConfig) (oracle : LLMOracle)
    (chunks : List (Nat × List Row)) :
    ∀ tc : List String × List String,
      tc.1 <+: (chunks.foldl (fun tc c => batchContextUpd cfg oracle c.1 c.2 tc) tc).1
      ∧ tc.2 <+: (chunks.foldl (fun tc c => batchContextUpd cfg oracle c.1 c.2 tc) tc).2 := by
  induction chunks with
  | nil => intro tc; exact ⟨List.prefix_refl _, List.prefix_refl _⟩
  | cons c rest ih =>
      intro tc
      have h1 := batchContextUpd_grows cfg oracle c.1 c.2 tc
      have h2 := ih (batchContextUpd cfg oracle c.1 c.2 tc)
      simp only [List.foldl_cons]
      exact ⟨h1.1.trans h2.1, h1.2.trans h2.2⟩

theorem qualPass_cond_iff (cfg : RunConfig) (batch : List Row) :
    ((cfg.mapping.questionHeaders.filter (fun q => !q.isCategorical)).length > 0
      && qualDataExists (cfg.mapping.questionHeaders.filter (fun q => !q.isCategorical)) batch)
      = true ↔
      (∃ q ∈ cfg.mapping.questionHeaders, q.isCategorical = false)
      ∧ ∃ row ∈ batch, ∃ q ∈ cfg.mapping.questionHeaders,
          q.isCategorical = false ∧ jsTrim (Row.getD row q.header "") ≠ "" := by
  rw [Bool.and_eq_true]
  constructor
  · rintro ⟨h1, h2⟩
    constructor
    · have hpos : 0 < (cfg.mapping.questionHeaders.filter (fun q => !q.isCategorical)).length :=
        of_decide_eq_true h1
      obtain ⟨q, hq⟩ := List.exists_mem_of_length_pos hpos
      obtain ⟨hqm, hqc⟩ := List.mem_filter.mp hq
      exact ⟨q, hqm, by simpa using hqc⟩
    · unfold qualDataExists at h2
      obtain ⟨row, hrow, hq⟩ := List.any_eq_true.mp h2
      obtain ⟨q, hqf, hqt⟩ := List.any_eq_true.mp hq
      obtain ⟨hqm, hqc⟩ := List.mem_filter.mp hqf
      exact ⟨row, hrow, q, hqm, by simpa using hqc, bne_iff_ne.mp hqt⟩
  · rintro ⟨⟨q, hqm, hqc⟩, row, hrow, q2, hq2m, hq2c, hq2t⟩
    constructor
    · apply decide_eq_true
      apply List.length_pos.mpr
      apply List.ne_nil_of_mem (a := q)
      exact List.mem_filter.mpr ⟨hqm, by simp [hqc]⟩
    · unfold qualDataExists
      apply List.any_eq_true.mpr
      exact ⟨row, hrow, List.any_eq_true.mpr ⟨q2, List.mem_filter.mpr ⟨hq2m, by simp [hq2c]⟩,
        bne_iff_ne.mpr hq2t⟩⟩

/-- C3 (counterexample): the categorical pass maps a blank answer to the
sentinel `SUB_CATEGORY_DEFAULT = "detail_na"`, not to `"no-detail"` as the
claim states. -/
theorem categorical_pass_cex :
    catPassLedger "r" "Email" 0 [c3Row] [⟨"Rating", true⟩] =
      [{ run_id := "r", student_identifier := "b@x.com", question_text := "Rating",
         original_answer := "", topic := "rating", sentiment := "n/a",
         sub_category := some SUB_CATEGORY_DEFAULT }]
    ∧ some SUB_CATEGORY_DEFAULT ≠ some "no-detail" := by
  constructor
  · decide
  · decide

/-- C3 (amended): every record of the categorical pass has topic equal to
the normalized question header, sentiment the fixed `"n/a"`, and
sub-category the normalized raw answer or the sentinel `"detail_na"` when
the answer is blank; and one record is produced per (row, categorical
question) pair. -/
theorem categorical_pass_postcondition (runId sid : String) (i : Nat) (batch : List Row)
    (catQs : List QuestionHeaderInfo) :
    (∀ rec ∈ catPassLedger runId sid i batch catQs,
      rec.topic = normalizeText rec.question_text
      ∧ rec.sentiment = "n/a"
      ∧ rec.sub_category = some (if normalizeText rec.original_answer = "" then
          SUB_CATEGORY_DEFAULT else normalizeText rec.original_answer))
    ∧ ∀ p ∈ batch.enum, ∀ q ∈ catQs,
        catRecord runId sid (i + p.1) p.2 q ∈ catPassLedger runId sid i batch catQs := by
  constructor
  · intro rec hrec
    unfold catPassLedger at hrec
    obtain ⟨l, hl, hrecl⟩ := List.mem_flatten.mp hrec
    obtain ⟨p, hp, hleq⟩ := List.mem_map.mp hl
    subst hleq
    obtain ⟨q, hq, hreceq⟩ := List.mem_map.mp hrecl
    subst hreceq
    exact ⟨rfl, rfl, rfl⟩
  · intro p hp q hq
    unfold catPassLedger
    exact List.mem_flatten.mpr ⟨_, List.mem_map.mpr ⟨p, hp, rfl⟩, List.mem_map.mpr ⟨q, hq, rfl⟩⟩

theorem categorical_pass_postcondition_witness :
    catRecord "run1" "Email" 0 exRow ⟨"Rating", true⟩
        ∈ catPassLedger "run1" "Email" 0 [exRow] [⟨"Rating", true⟩]
    ∧ (catRecord "run1" "Email" 0 exRow ⟨"Rating", true⟩).sentiment = "n/a" := by
  have h := categorical_pass_postcondition "run1" "Email" 0 [exRow] [⟨"Rating", true⟩]
  have hmem := h.2 (0, exRow) (by decide) ⟨"Rating", true⟩ (by decide)
  exact ⟨hmem, (h.1 _ hmem).2.1⟩

/-- C4 (counterexample): in the spec's concrete scenario the folded stats
key for `Comments` is `staff_positive_detail_na`, so the claimed value with
`staff_positive_no-detail` is not the computed stats. -/
theorem concrete_scenario_cex :
    finalRunStats exCfg exOracles [exRow] =
      [("Rating", [("rating_n/a_5", 1)]), ("Comments", [("staff_positive_detail_na", 1)])]
    ∧ finalRunStats exCfg exOracles [exRow] ≠
      [("Rating", [("rating_n/a_5", 1)]), ("Comments", [("staff_positive_no-detail", 1)])] := by
  constructor
  · decide
  · decide

/-- C4 (amended): the scenario's final folded stats are
`{Rating: {rating_n/a_5: 1}, Comments: {staff_positive_detail_na: 1}}`, the
combined key being the join of topic, sentiment and the sub-category or the
`"detail_na"` default sentinel. -/
theorem concrete_scenario_amended :
    finalRunStats exCfg exOracles [exRow] =
      [("Rating", [("rating_n/a_5", 1)]), ("Comments", [("staff_positive_detail_na", 1)])]
    ∧ "staff_positive_detail_na" = "staff" ++ "_" ++ "positive" ++ "_" ++ SUB_CATEGORY_DEFAULT := by
  constructor
  · decide
  · rfl

/-- C1: when the qualitative pass of a batch throws, the per-batch error
event tagged with that batch's index is streamed, every batch's
categorical-pass records remain in the final ledger, the following batch
still starts when one exists, and the run still ends with the terminal
`complete` event. -/
theorem partial_failure_tolerance (cfg : RunConfig) (oracles : RunOracles) (rows : List Row)
    (hB : 0 < cfg.batchSize) (c : Nat × List Row) (hc : c ∈ chunksFrom cfg.batchSize rows)
    (hcond : ((cfg.mapping.questionHeaders.filter (fun q => !q.isCategorical)).length > 0
      && qualDataExists (cfg.mapping.questionHeaders.filter (fun q => !q.isCategorical)) c.2)
      = true)
    (msg : String)
    (hthrow : oracles.llm (batchNumberOf cfg.batchSize c.1) = Except.error msg) :
    StreamMessage.error
        ("Processing error in batch " ++ toString (batchNumberOf cfg.batchSize c.1) ++ ": " ++ msg)
        (some (batchNumberOf cfg.batchSize c.1)) ∈ (processRun cfg oracles rows).events
    ∧ (∀ d ∈ chunksFrom cfg.batchSize rows,
        catPassLedger cfg.runId cfg.mapping.studentIdHeader d.1 d.2
            (cfg.mapping.questionHeaders.filter (fun q => q.isCategorical))
          <:+: (processRun cfg oracles rows).ledger)
    ∧ (batchNumberOf cfg.batchSize c.1 < totalBatchesFor cfg.batchSize rows.length →
        StreamMessage.batchStart (batchNumberOf cfg.batchSize c.1 + 1)
          (totalBatchesFor cfg.batchSize rows.length) ∈ (processRun cfg oracles rows).events)
    ∧ (processRun cfg oracles rows).events.getLast? =
        some (StreamMessage.complete (completeMsg rows.length)) := by
  refine ⟨?_, ?_, ?_, processRun_getLast cfg oracles rows⟩
  · apply mem_events_of_mem_batchEvents cfg oracles rows hB c hc
    unfold batchEvents
    refine List.mem_cons.mpr (Or.inr ?_)
    simp only [batchInnerEvents]
    rw [if_pos hcond, hthrow]
    exact List.mem_singleton.mpr rfl
  · intro d hd
    exact catPassLedger_within cfg oracles rows hB d hd
  · intro hlt
    have hnum := chunksFrom_numbering cfg.batchSize rows hB
    have hmemr : batchNumberOf cfg.batchSize c.1 + 1 ∈
        List.range' 1 (totalBatchesFor cfg.batchSize rows.length) 1 := by
      rw [List.mem_range'_1]
      omega
    rw [← hnum] at hmemr
    obtain ⟨d, hd, hdnum⟩ := List.mem_map.mp hmemr
    apply mem_events_of_mem_batchEvents cfg oracles rows hB d hd
    unfold batchEvents
    rw [hdnum]
    exact List.mem_cons_self _ _

theorem partial_failure_tolerance_witness :
    StreamMessage.error "Processing error in batch 1: rate limited" (some 1)
        ∈ (processRun c1Cfg c1Oracles c1Rows).events
    ∧ catPassLedger c1Cfg.runId "Email" 1 [[("Email", "b@x.com"), ("Comments", "bad")]]
        (c1Cfg.mapping.questionHeaders.filter (fun q => q.isCategorical))
        <:+: (processRun c1Cfg c1Oracles c1Rows).ledger
    ∧ StreamMessage.batchStart 2 2 ∈ (processRun c1Cfg c1Oracles c1Rows).events
    ∧ (processRun c1Cfg c1Oracles c1Rows).events.getLast? =
        some (StreamMessage.complete (completeMsg 2)) := by
  have h := partial_failure_tolerance c1Cfg c1Oracles c1Rows (by decide)
      (0, [[("Email", "a@x.com"), ("Comments", "good")]]) (by decide) (by decide)
      "rate limited" rfl
  exact ⟨h.1, h.2.1 (1, [[("Email", "b@x.com"), ("Comments", "bad")]]) (by decide),
    h.2.2.1 (by decide), h.2.2.2⟩

/-- C2 (counterexample): in a run whose summary generation throws, no
`summary` event is ever streamed (an error event without batch index is
streamed instead), so the terminal `stats`, `summary`, `complete` triple is
not always emitted. -/
theorem stream_event_ordering_cex :
    (processRun c2Cfg c2Oracles c2Rows).events =
      [StreamMessage.batchStart 1 1,
       StreamMessage.stats [("Rating", [("rating_n/a_5", 1)])],
       StreamMessage.error "Failed to generate AI summary: model unavailable" none,
       StreamMessage.complete (completeMsg 1)]
    ∧ (processRun c2Cfg c2Oracles c2Rows).events.filter isSummaryEvent = [] := by
  constructor
  · decide
  · decide

/-- C2 (amended): exactly `ceil(N/B)` `batchStart` events are emitted, with
strictly increasing 1-based indices; the stream is the concatenation of the
per-batch blocks (each a `batchStart` followed by result/error events that
are never `batchStart`s) followed by the terminal `stats` event, the
summary-stage events, the persistence-stage events and the final
`complete`; a `summary` event is emitted unless stats are non-empty, mock
mode is off and summary generation fails, in which case an error event
without a batch index is emitted in its place. -/
theorem stream_event_ordering_amended (cfg : RunConfig) (oracles : RunOracles)
    (rows : List Row) (hB : 0 < cfg.batchSize) :
    batchStartIndices (processRun cfg oracles rows).events =
        List.range' 1 (totalBatchesFor cfg.batchSize rows.length) 1
    ∧ (processRun cfg oracles rows).events =
        ((chunksFrom cfg.batchSize rows).map (fun c =>
            StreamMessage.batchStart (batchNumberOf cfg.batchSize c.1)
                (totalBatchesFor cfg.batchSize rows.length)
              :: batchInnerEvents cfg oracles.llm c.1 c.2)).flatten
          ++ StreamMessage.stats (finalRunStats cfg oracles rows)
          :: summaryEvents cfg oracles (finalRunStats cfg oracles rows)
          ++ persistEvents oracles
          ++ [StreamMessage.complete (completeMsg rows.length)]
    ∧ (∀ c ∈ chunksFrom cfg.batchSize rows, ∀ e ∈ batchInnerEvents cfg oracles.llm c.1 c.2,
        batchStartIdxOf e = none)
    ∧ ((finalRunStats cfg oracles rows = [] ∨ cfg.useMockLlm = true ∨
          ∃ t, oracles.summaryLLM = Except.ok t) →
        ∃ t, summaryEvents cfg oracles (finalRunStats cfg oracles rows) =
          [StreamMessage.summary t])
    ∧ ∀ m, oracles.summaryLLM = Except.error m → finalRunStats cfg oracles rows ≠ [] →
        cfg.useMockLlm = false →
        summaryEvents cfg oracles (finalRunStats cfg oracles rows) =
          [StreamMessage.error ("Failed to generate AI summary: " ++ m) none] := by
  refine ⟨batchStartIndices_processRun cfg oracles rows hB, ?_, ?_, ?_, ?_⟩
  · rw [processRun_events cfg oracles rows hB]
    unfold terminalEvents
    simp only [List.append_assoc, List.cons_append, List.append_nil]
    rfl
  · intro c hc e he
    exact batchStartIdxOf_inner cfg oracles.llm c.1 c.2 e he
  · intro hcase
    unfold summaryEvents
    by_cases hmock : cfg.useMockLlm = true
    · rw [if_neg (by simp [hmock]), if_pos hmock]
      exact ⟨MOCK_SUMMARY, rfl⟩
    · have hmock' : cfg.useMockLlm = false := by
        revert hmock
        cases cfg.useMockLlm <;> simp
      rcases hcase with hnil | hmock2 | ⟨t, ht⟩
      · rw [if_neg (by simp [hnil]), if_neg hmock]
        exact ⟨DEFAULT_SUMMARY, rfl⟩
      · exact absurd hmock2 hmock
      · by_cases hnil : finalRunStats cfg oracles rows = []
        · rw [if_neg (by simp [hnil]), if_neg hmock]
          exact ⟨DEFAULT_SUMMARY, rfl⟩
        · have hlen : 0 < (finalRunStats cfg oracles rows).length := List.length_pos.mpr hnil
          rw [if_pos (by simp [hlen, hmock']), ht]
          exact ⟨t, rfl⟩
  · intro m hm hnil hmock
    have hlen : 0 < (finalRunStats cfg oracles rows).length := List.length_pos.mpr hnil
    unfold summaryEvents
    rw [if_pos (by simp [hlen, hmock]), hm]

theorem stream_event_ordering_amended_witness :
    batchStartIndices (processRun exCfg exOracles [exRow]).events = [1]
    ∧ ∃ t, summaryEvents exCfg exOracles (finalRunStats exCfg exOracles [exRow])
        = [StreamMessage.summary t] := by
  have h := stream_event_ordering_amended exCfg exOracles [exRow] (by decide)
  exact ⟨h.1, h.2.2.2.1 (Or.inr (Or.inr ⟨"All good.", rfl⟩))⟩

/-- C8: the categorization LLM is invoked for a batch exactly when the
mapping has at least one qualitative question header and the batch holds at
least one non-blank answer to a qualitative question. -/
theorem qualitative_skip_condition (cfg : RunConfig) (oracles : RunOracles) (rows : List Row)
    (hB : 0 < cfg.batchSize) (k : Nat) :
    k ∈ (processRun cfg oracles rows).llmCalls ↔
      ∃ c ∈ chunksFrom cfg.batchSize rows,
        batchNumberOf cfg.batchSize c.1 = k
        ∧ (∃ q ∈ cfg.mapping.questionHeaders, q.isCategorical = false)
        ∧ ∃ row ∈ c.2, ∃ q ∈ cfg.mapping.questionHeaders,
            q.isCategorical = false ∧ jsTrim (Row.getD row q.header "") ≠ "" := by
  rw [processRun_llmCalls cfg oracles rows hB, List.mem_flatten]
  constructor
  · rintro ⟨l, hl, hkl⟩
    obtain ⟨c, hc, hleq⟩ := List.mem_map.mp hl
    subst hleq
    simp only [batchCallLog] at hkl
    split at hkl
    · rename_i hcond
      simp only [List.mem_singleton] at hkl
      obtain ⟨h1, h2⟩ := (qualPass_cond_iff cfg c.2).mp hcond
      exact ⟨c, hc, hkl.symm, h1, h2⟩
    · cases hkl
  · rintro ⟨c, hc, hk, h1, h2⟩
    refine ⟨batchCallLog cfg c.1 c.2, List.mem_map.mpr ⟨c, hc, rfl⟩, ?_⟩
    simp only [batchCallLog]
    rw [if_pos ((qualPass_cond_iff cfg c.2).mpr ⟨h1, h2⟩)]
    simp [hk]

theorem qualitative_skip_condition_witness :
    1 ∈ (processRun c9Cfg c9okOracles c9Rows).llmCalls := by
  refine (qualitative_skip_condition c9Cfg c9okOracles c9Rows (by decide) 1).mpr ?_
  refine ⟨(0, c9Rows), by decide, by decide, ?_, ?_⟩
  · exact ⟨⟨"Comments", false⟩, by decide, rfl⟩
  · exact ⟨[("Email", "a@x.com"), ("Comments", "meh")], by decide,
      ⟨"Comments", false⟩, by decide, rfl, by decide⟩

/-- C9 (counterexample): the qualitative pass can produce the normalized
topic `"n/a"` — it then appears in the ledger — yet the running topic
context set stays empty: not every normalized topic is added. -/
theorem context_accumulation_cex :
    (normalizeCategorizedAnswer ⟨"Comments", " N/A ", "neutral", none⟩).topic = "n/a"
    ∧ (processRun c9Cfg c9Oracles c9Rows).ledger =
        [{ run_id := "run5", student_identifier := "a@x.com", question_text := "Comments",
           original_answer := "meh", topic := "n/a", sentiment := "neutral",
           sub_category := none }]
    ∧ (processRun c9Cfg c9Oracles c9Rows).topics = [] := by
  refine ⟨by decide, by decide, by decide⟩

/-- C9 (amended): the context sets only ever grow across the batch loop
(never reset mid-run), and every normalized topic other than the `"n/a"`
sentinel, and every present normalized sub-category, produced by a
successful qualitative pass is in the run's final context sets. -/
theorem context_accumulation_amended (cfg : RunConfig) (oracles : RunOracles) (rows : List Row)
    (hB : 0 < cfg.batchSize) :
    (∀ (totalBatches i : Nat) (batch : List Row) (st : RunState),
      st.topics <+: (processBatch cfg oracles.llm totalBatches i batch st).topics
      ∧ st.subCats <+: (processBatch cfg oracles.llm totalBatches i batch st).subCats)
    ∧ ∀ c ∈ chunksFrom cfg.batchSize rows, ∀ rs : List CategorizedStudent,
        oracles.llm (batchNumberOf cfg.batchSize c.1) = Except.ok rs →
        ((cfg.mapping.questionHeaders.filter (fun q => !q.isCategorical)).length > 0
          && qualDataExists (cfg.mapping.questionHeaders.filter (fun q => !q.isCategorical)) c.2)
          = true →
        ∀ sr ∈ normalizeResults rs, ∀ cat ∈ sr.categorizations,
          (cat.topic ≠ "n/a" → cat.topic ∈ (processRun cfg oracles rows).topics)
          ∧ ∀ sc, cat.sub_category = some sc → sc ∈ (processRun cfg oracles rows).subCats := by
  constructor
  · intro totalBatches i batch st
    rw [processBatch_spec]
    exact batchContextUpd_grows cfg oracles.llm i batch (st.topics, st.subCats)
  · intro c hc rs hok hcond sr hsr cat hcat
    have hctx := processRun_context cfg oracles rows hB
    obtain ⟨l1, l2, hsplit⟩ := List.append_of_mem hc
    have hfold : (chunksFrom cfg.batchSize rows).foldl
        (fun tc c => batchContextUpd cfg oracles.llm c.1 c.2 tc) ([], []) =
        l2.foldl (fun tc c => batchContextUpd cfg oracles.llm c.1 c.2 tc)
          (batchContextUpd cfg oracles.llm c.1 c.2
            (l1.foldl (fun tc c => batchContextUpd cfg oracles.llm c.1 c.2 tc) ([], []))) := by
      rw [hsplit, List.foldl_append, List.foldl_cons]
    have hupd : batchContextUpd cfg oracles.llm c.1 c.2
        (l1.foldl (fun tc c => batchContextUpd cfg oracles.llm c.1 c.2 tc) ([], [])) =
        updateContextResults
          (l1.foldl (fun tc c => batchContextUpd cfg oracles.llm c.1 c.2 tc) ([], []))
          (normalizeResults rs) := by
      simp only [batchContextUpd]
      rw [if_pos hcond, hok]
    have htop : (processRun cfg oracles rows).topics = ((chunksFrom cfg.batchSize rows).foldl
        (fun tc c => batchContextUpd cfg oracles.llm c.1 c.2 tc) ([], [])).1 :=
      congrArg Prod.fst hctx
    have hsub : (processRun cfg oracles rows).subCats = ((chunksFrom cfg.batchSize rows).foldl
        (fun tc c => batchContextUpd cfg oracles.llm c.1 c.2 tc) ([], [])).2 :=
      congrArg Prod.snd hctx
    constructor
    · intro hna
      have hmem1 := updateContextResults_mem_topic (normalizeResults rs) sr cat hcat hna hsr
        (l1.foldl (fun tc c => batchContextUpd cfg oracles.llm c.1 c.2 tc) ([], []))
      rw [htop, hfold, hupd]
      exact (foldl_batchContextUpd_grows cfg oracles.llm l2 _).1.subset hmem1
    · intro sc hsc
      have hmem1 := updateContextResults_mem_sub (normalizeResults rs) sr cat hcat sc hsc hsr
        (l1.foldl (fun tc c => batchContextUpd cfg oracles.llm c.1 c.2 tc) ([], []))
      rw [hsub, hfold, hupd]
      exact (foldl_batchContextUpd_grows cfg oracles.llm l2 _).2.subset hmem1

theorem context_accumulation_amended_witness :
    "staff_friendly" ∈ (processRun c9Cfg c9okOracles c9Rows).topics
    ∧ "helpful_desk" ∈ (processRun c9Cfg c9okOracles c9Rows).subCats := by
  have h := (context_accumulation_amended c9Cfg c9okOracles c9Rows (by decide)).2
      (0, c9Rows) (by decide) [c9okStudent] rfl (by decide)
      (normalizeStudent c9okStudent) (by decide)
      (normalizeCategorizedAnswer ⟨"Comments", "Staff Friendly", "positive", some "Helpful Desk"⟩)
      (by decide)
  exact ⟨h.1 (by decide), h.2 "helpful_desk" (by decide)⟩

/-- C10: every ledger record's `question_text` is the header of some entry
of the confirmed mapping; categorical-pass records use only categorical
headers; qualitative-pass records use only qualitative headers and are only
appended when some row of the batch matches the returned respondent id. -/
theorem ledger_invariant (cfg : RunConfig) (oracles : RunOracles) (rows : List Row)
    (hB : 0 < cfg.batchSize) :
    (∀ rec ∈ (processRun cfg oracles rows).ledger,
      ∃ qh ∈ cfg.mapping.questionHeaders, rec.question_text = qh.header)
    ∧ (∀ (i : Nat) (batch : List Row) (rec : Categorization),
        rec ∈ catPassLedger cfg.runId cfg.mapping.studentIdHeader i batch
          (cfg.mapping.questionHeaders.filter (fun q => q.isCategorical)) →
        ∃ qh ∈ cfg.mapping.questionHeaders,
          qh.isCategorical = true ∧ rec.question_text = qh.header)
    ∧ ∀ (i : Nat) (batch : List Row) (rec : Categorization),
        rec ∈ batchQualLedger cfg oracles.llm i batch →
        (∃ qh ∈ cfg.mapping.questionHeaders,
          qh.isCategorical = false ∧ rec.question_text = qh.header)
        ∧ ∃ p ∈ batch.enum,
            respondentIdOf cfg.mapping.studentIdHeader (i + p.1) p.2
              = rec.student_identifier := by
  have hcat2 : ∀ (i : Nat) (batch : List Row) (rec : Categorization),
      rec ∈ catPassLedger cfg.runId cfg.mapping.studentIdHeader i batch
        (cfg.mapping.questionHeaders.filter (fun q => q.isCategorical)) →
      ∃ qh ∈ cfg.mapping.questionHeaders,
        qh.isCategorical = true ∧ rec.question_text = qh.header := by
    intro i batch rec hrec
    unfold catPassLedger at hrec
    obtain ⟨l, hl, hrecl⟩ := List.mem_flatten.mp hrec
    obtain ⟨p, hp, hleq⟩ := List.mem_map.mp hl
    subst hleq
    obtain ⟨q, hq, hreceq⟩ := List.mem_map.mp hrecl
    subst hreceq
    obtain ⟨hqm, hqc⟩ := List.mem_filter.mp hq
    exact ⟨q, hqm, hqc, rfl⟩
  have hqual : ∀ (i : Nat) (batch : List Row) (rec : Categorization),
      rec ∈ batchQualLedger cfg oracles.llm i batch →
      (∃ qh ∈ cfg.mapping.questionHeaders,
        qh.isCategorical = false ∧ rec.question_text = qh.header)
      ∧ ∃ p ∈ batch.enum,
          respondentIdOf cfg.mapping.studentIdHeader (i + p.1) p.2
            = rec.student_identifier := by
    intro i batch rec hrec
    simp only [batchQualLedger] at hrec
    split at hrec
    · split at hrec
      · cases hrec
      · obtain ⟨l, hl, hrecl⟩ := List.mem_flatten.mp hrec
        obtain ⟨sr, hsr, hleq⟩ := List.mem_map.mp hl
        subst hleq
        simp only [qualLedgerOf] at hrecl
        split at hrecl
        · rename_i row hfind
          simp only [qualRecordsFor] at hrecl
          obtain ⟨ca, hca, hreceq⟩ := List.mem_map.mp hrecl
          obtain ⟨hcam, hcaq⟩ := List.mem_filter.mp hca
          obtain ⟨q, hqf, hqeq⟩ := List.any_eq_true.mp hcaq
          obtain ⟨hqm, hqc⟩ := List.mem_filter.mp hqf
          constructor
          · refine ⟨q, hqm, by simpa using hqc, ?_⟩
            rw [← hreceq]
            exact (beq_iff_eq.mp hqeq).symm
          · simp only [findOriginalRow] at hfind
            obtain ⟨p, hp, hpeq⟩ := Option.map_eq_some'.mp hfind
            refine ⟨p, List.mem_of_find?_eq_some hp, ?_⟩
            have hpt := List.find?_some hp
            rw [← hreceq]
            exact beq_iff_eq.mp hpt
        · cases hrecl
    · cases hrec
  refine ⟨?_, hcat2, hqual⟩
  intro rec hrec
  rw [processRun_ledger cfg oracles rows hB] at hrec
  obtain ⟨l, hl, hrecl⟩ := List.mem_flatten.mp hrec
  obtain ⟨c, hc, hleq⟩ := List.mem_map.mp hl
  subst hleq
  unfold batchLedger at hrecl
  rcases List.mem_append.mp hrecl with hcat | hq
  · obtain ⟨qh, hqm, _, heq⟩ := hcat2 c.1 c.2 rec hcat
    exact ⟨qh, hqm, heq⟩
  · obtain ⟨⟨qh, hqm, _, heq⟩, -⟩ := hqual c.1 c.2 rec hq
    exact ⟨qh, hqm, heq⟩

theorem ledger_invariant_witness :
    ∃ qh ∈ exCfg.mapping.questionHeaders,
      (catRecord "run1" "Email" 0 exRow ⟨"Rating", true⟩).question_text = qh.header := by
  have h := (ledger_invariant exCfg exOracles [exRow] (by decide)).1
      (catRecord "run1" "Email" 0 exRow ⟨"Rating", true⟩) (by decide)
  exact h
